import Mathlib

set_option maxHeartbeats 1000000

namespace VmieApiQA

/-- The dynamic value model of the engine: Go `interface{}` values as decoded
from JSON/YAML in this repository.  `null` is the Go `nil` interface (and also
stands for a `nil` map or `nil` slice stored in an interface), `boolv` a Go
`bool`, `intv` a Go numeric of reflect kind Int (Go `float32`/`float64` behave
identically in every branch modelled here and are not represented separately,
since no claim depends on float arithmetic), `strv` a Go `string`, `jnum` an
`encoding/json` `json.Number` carrying its raw decoded text (its reflect kind
is String, its reflect type name is `json.Number`), `arr` a `[]interface{}`
and `obj` a `map[string]interface{}` represented as an association list. -/
inductive GoVal where
  | null : GoVal
  | boolv (b : Bool) : GoVal
  | intv (n : Int) : GoVal
  | strv (s : String) : GoVal
  | jnum (raw : String) : GoVal
  | arr (elems : List GoVal) : GoVal
  | obj (fields : List (String × GoVal)) : GoVal
deriving Repr

/-- The result of Go `time.Parse(time.RFC3339, s)`, as far as the program can
observe it.  `sec`/`nsec` give the instant (Unix seconds and the fractional
nanoseconds), `offset` is the zone offset in seconds recorded from the string,
`isUTC` is true exactly when the string used the literal `Z` designator (Go
then installs the shared `time.UTC` location; a numeric offset yields a
different location value).  `minute` and `second` are the wall-clock minute
and second in the parsed location, i.e. the values written in the string;
they feed the digit-substring heuristic of `TimeCompare`.  Go compares two
`time.Time` values with `==` by comparing the instant and the location; the
location is modelled by `(offset, isUTC)` (pointer identity of two separately
fabricated fixed zones with the same offset is memory layout and is not
modelled; no theorem below depends on that region). -/
structure GoTime where
  sec : Int
  nsec : Nat
  offset : Int
  isUTC : Bool
  minute : Nat
  second : Nat
deriving Repr, DecidableEq

/-- Go struct equality `t1 == t2` on two parsed `time.Time` values:
same instant (seconds and nanoseconds) and same location. -/
def goTimeEq (t1 t2 : GoTime) : Bool :=
  t1.sec == t2.sec && t1.nsec == t2.nsec && t1.offset == t2.offset && t1.isUTC == t2.isUTC

/-- Decimal value of a digit character. -/
def digitVal (c : Char) : Nat := c.toNat - 48

/-- Two decimal digits read as a number, `none` unless both are digits. -/
def d2 (a b : Char) : Option Nat :=
  if a.isDigit && b.isDigit then some (digitVal a * 10 + digitVal b) else none

/-- Four decimal digits read as a number, `none` unless all are digits. -/
def d4 (a b c d : Char) : Option Nat :=
  if a.isDigit && b.isDigit && c.isDigit && d.isDigit then
    some (digitVal a * 1000 + digitVal b * 100 + digitVal c * 10 + digitVal d)
  else none

/-- Go `isLeap`: leap year test of the proleptic Gregorian calendar. -/
def isLeap (y : Nat) : Bool := y % 4 == 0 && (y % 100 != 0 || y % 400 == 0)

/-- Go `daysIn(m, year)`: number of days of month `m` (1-12) in `year`. -/
def daysIn (m : Nat) (y : Nat) : Nat :=
  if m == 2 then (if isLeap y then 29 else 28)
  else if m == 4 || m == 6 || m == 9 || m == 11 then 30
  else 31

/-- Days from the Unix epoch 1970-01-01 to the civil date `y-m-d`
(proleptic Gregorian), the standard days-from-civil computation used to turn
the validated date fields of a parsed timestamp into an instant. -/
def daysFromCivil (y : Int) (m : Nat) (d : Nat) : Int :=
  let y' : Int := if m ≤ 2 then y - 1 else y
  let era : Int := (if 0 ≤ y' then y' else y' - 399) / 400
  let yoe : Int := y' - era * 400
  let mp : Int := (Int.ofNat m + 9) % 12
  let doy : Int := (153 * mp + 2) / 5 + (Int.ofNat d - 1)
  let doe : Int := yoe * 365 + yoe / 4 - yoe / 100 + doy
  era * 146097 + doe - 719468

/-- Leading decimal digits of a character list, and the rest. -/
def takeDigits : List Char → List Char × List Char
  | [] => ([], [])
  | c :: rest =>
    if c.isDigit then
      let (ds, r) := takeDigits rest
      (c :: ds, r)
    else ([], c :: rest)

/-- Go `parseNanoseconds`: the fractional digits after the decimal point read
as nanoseconds; only the first nine digits are significant. -/
def nanosOf (ds : List Char) : Nat :=
  let ds9 := ds.take 9
  (ds9.foldl (fun a c => a * 10 + digitVal c) 0) * 10 ^ (9 - ds9.length)

/-- Optional fractional-second part: a point followed by at least one digit;
returns the nanoseconds and the unconsumed rest. -/
def parseFrac : List Char → Nat × List Char
  | '.' :: c :: rest =>
    if c.isDigit then
      let (ds, r) := takeDigits (c :: rest)
      (nanosOf ds, r)
    else (0, '.' :: c :: rest)
  | l => (0, l)

/-- The zone designator at the end of an RFC3339 timestamp: the literal `Z`
(offset 0, the shared UTC location) or `±hh:mm` (a recorded offset in seconds,
a non-UTC location value).  Returns `(offset, isUTC)`. -/
def parseZone : List Char → Option (Int × Bool)
  | ['Z'] => some (0, true)
  | [sign, zh1, zh2, ':', zm1, zm2] =>
    if sign == '+' || sign == '-' then
      match d2 zh1 zh2, d2 zm1 zm2 with
      | some zh, some zm =>
        if zh ≤ 23 && zm ≤ 59 then
          let mag : Int := (Int.ofNat zh) * 3600 + (Int.ofNat zm) * 60
          some ((if sign == '-' then -mag else mag), false)
        else none
      | _, _ => none
    else none
  | _ => none

/-- Go `time.Parse(time.RFC3339, s)`: strict `YYYY-MM-DDThh:mm:ss[.f+](Z|±hh:mm)`
with the field ranges Go validates (month 1-12, day within the month, hour 0-23,
minute 0-59, second 0-59, zone hour 0-23, zone minute 0-59).  Returns the
observable parse result or `none` on any parse error. -/
def parseRFC3339 (s : String) : Option GoTime :=
  match s.data with
  | y1 :: y2 :: y3 :: y4 :: '-' :: m1 :: m2 :: '-' :: dd1 :: dd2 :: 'T' ::
    h1 :: h2 :: ':' :: n1 :: n2 :: ':' :: s1 :: s2 :: rest =>
    match d4 y1 y2 y3 y4, d2 m1 m2, d2 dd1 dd2, d2 h1 h2, d2 n1 n2, d2 s1 s2 with
    | some year, some month, some day, some hour, some minute, some second =>
      if 1 ≤ month && month ≤ 12 && 1 ≤ day && day ≤ daysIn month year &&
         hour ≤ 23 && minute ≤ 59 && second ≤ 59 then
        let (nsec, rest2) := parseFrac rest
        let wallSec : Int := daysFromCivil (Int.ofNat year) month day * 86400 +
          (Int.ofNat hour) * 3600 + (Int.ofNat minute) * 60 + (Int.ofNat second)
        match parseZone rest2 with
        | some (off, utc) =>
          some { sec := wallSec - off, nsec := nsec, offset := off, isUTC := utc,
                 minute := minute, second := second }
        | none => none
      else none
    | _, _, _, _, _, _ => none
  | _ => none

/-- Byte-level substring containment, Go `strings.Contains` (our inputs are
ASCII digits searched in arbitrary text, where code-point containment and
byte containment agree). -/
def strContains (hay needle : String) : Bool :=
  hay.data.tails.any (fun t => needle.data.isPrefixOf t)

/-- `fmt.Sprintf("%d", n)` for the minute/second components. -/
def decimalOf (n : Nat) : String := toString n

/-- The heuristic branch of `TimeCompare`: the non-parsing string must contain
the decimal digits of the parsed time's second and of its minute. -/
def containsMinSec (s : String) (t : GoTime) : Bool :=
  strContains s (decimalOf t.second) && strContains s (decimalOf t.minute)

/-- `TimeCompare(v1, v2)` from `src/api_util/map.go`: both arguments must be
Go strings (a `json.Number` fails the type assertion); both parse → Go `==`
on the parsed `time.Time` values; neither parses → false; exactly one parses
→ the digit-substring heuristic on the other string. -/
def TimeCompare (v1 v2 : GoVal) : Bool :=
  match v1, v2 with
  | .strv str1, .strv str2 =>
    match parseRFC3339 str1, parseRFC3339 str2 with
    | some t1, some t2 => goTimeEq t1 t2
    | some t1, none => containsMinSec str2 t1
    | none, some t2 => containsMinSec str1 t2
    | none, none => false
  | _, _ => false

example : parseRFC3339 "2022-01-01T12:00:00Z" =
    some { sec := 1641038400, nsec := 0, offset := 0, isUTC := true,
           minute := 0, second := 0 } := by decide
example : parseRFC3339 "2022-01-01T13:00:00+01:00" =
    some { sec := 1641038400, nsec := 0, offset := 3600, isUTC := false,
           minute := 0, second := 0 } := by decide
example : parseRFC3339 "2022-01-01T12:00:00" = none := by decide
example : parseRFC3339 "2022-13-01T12:00:00Z" = none := by decide
example : TimeCompare (.strv "2022-01-01T12:00:00Z") (.strv "2022-01-01T12:00:00Z") = true := by decide
example : TimeCompare (.strv "2022-01-01T12:00:00Z") (.strv "2022-01-01T12:01:00Z") = false := by decide

/-- Go `encoding/json` string escaping with HTML escaping on (the default for
`json.Marshal`): quote and backslash escaped, newline, carriage return and tab
by their short forms, other control characters as lower-case `\u00XX`,
the HTML characters and the line/paragraph separators as `\uXXXX`. -/
def escapeChar (c : Char) : String :=
  if c == '"' then "\\\""
  else if c == '\\' then "\\\\"
  else if c == '\n' then "\\n"
  else if c == '\r' then "\\r"
  else if c == '\t' then "\\t"
  else if c.toNat < 32 then
    let lo := c.toNat % 16
    let hi := c.toNat / 16
    let hexDigit := fun (n : Nat) => Char.ofNat (if n < 10 then 48 + n else 87 + n)
    "\\u00" ++ String.mk [hexDigit hi, hexDigit lo]
  else if c == '<' then "\\u003c"
  else if c == '>' then "\\u003e"
  else if c == '&' then "\\u0026"
  else if c.toNat == 0x2028 then "\\u2028"
  else if c.toNat == 0x2029 then "\\u2029"
  else String.mk [c]

/-- `json.Marshal` of a Go string: quoted and escaped. -/
def marshalString (s : String) : String :=
  "\"" ++ (s.data.map escapeChar).foldl (· ++ ·) "" ++ "\""

/-- Integer part of the `json.Number` grammar: a lone zero or a nonzero digit
followed by digits; returns the unconsumed rest. -/
def numAfterInt : List Char → Option (List Char)
  | [] => none
  | c :: rest =>
    if c == '0' then some rest
    else if c.isDigit && c != '0' then some ((takeDigits rest).2) else none

/-- Optional fraction of the `json.Number` grammar. -/
def numAfterFrac : List Char → Option (List Char)
  | '.' :: c :: rest => if c.isDigit then some ((takeDigits rest).2) else none
  | l => some l

/-- Optional exponent of the `json.Number` grammar. -/
def numAfterExp : List Char → Option (List Char)
  | e :: rest =>
    if e == 'e' || e == 'E' then
      match rest with
      | sg :: rest2 =>
        let rest3 := if sg == '+' || sg == '-' then rest2 else sg :: rest2
        match rest3 with
        | c :: rest4 => if c.isDigit then some ((takeDigits rest4).2) else none
        | [] => none
      | [] => none
    else some (e :: rest)
  | [] => some []

/-- Grammar check Go's encoder performs on a `json.Number` before writing it
verbatim: optional minus, integer part without leading zero, optional
fraction, optional exponent (`encoding/json.isValidNumber`). -/
def isValidNumber (s : String) : Bool :=
  match numAfterInt (if s.data.head? == some '-' then s.data.tail else s.data) with
  | none => false
  | some r1 =>
    match numAfterFrac r1 with
    | none => false
    | some r2 =>
      match numAfterExp r2 with
      | none => false
      | some r3 => r3.isEmpty

/-- Code-point lexicographic order on character lists; on valid UTF-8 this is
exactly Go's byte-wise string order. -/
def charListLe : List Char → List Char → Bool
  | [], _ => true
  | _ :: _, [] => false
  | a :: as, b :: bs =>
    if a.toNat < b.toNat then true
    else if b.toNat < a.toNat then false
    else charListLe as bs

/-- Go string order `a <= b`. -/
def strLe (a b : String) : Bool := charListLe a.data b.data

/-- Insert an encoded entry into a key-sorted list of encoded entries. -/
def insertSorted (p : String × String) : List (String × String) → List (String × String)
  | [] => [p]
  | q :: rest => if strLe p.1 q.1 then p :: q :: rest else q :: insertSorted p rest

/-- Key order `json.Marshal` uses for a Go map: ascending string order
(byte order in Go, which agrees with code-point order on valid UTF-8).
Applied to entries already encoded, since encoding leaves keys unchanged. -/
def sortEncoded (kvs : List (String × String)) : List (String × String) :=
  kvs.foldr insertSorted []

/-- Braced, comma-separated `"key":value` rendering of sorted encoded entries. -/
def joinPairs (kvs : List (String × String)) : String :=
  "\x7b" ++ String.intercalate "," (kvs.map (fun p => marshalString p.1 ++ ":" ++ p.2)) ++ "\x7d"

mutual
/-- `json.Marshal` of a value of the model (the encoded bytes as a string,
with the encoder's error swallowed into an empty string exactly as the
call sites in `InterfaceEquals` do): `nil` → `null`, bools and numbers in
their literal forms, a `json.Number` written verbatim when well formed and
an encoding error (empty string) otherwise, strings quoted and escaped,
slices bracketed, maps braced with keys sorted. -/
def goMarshal : GoVal → String
  | .null => "null"
  | .boolv b => if b then "true" else "false"
  | .intv n => toString n
  | .strv s => marshalString s
  | .jnum raw => if isValidNumber raw then raw else ""
  | .arr elems => "[" ++ String.intercalate "," (marshalList elems) ++ "]"
  | .obj fields => joinPairs (sortEncoded (encodePairs fields))
termination_by structural v => v

/-- Encodings of the elements of a slice, in order. -/
def marshalList : List GoVal → List String
  | [] => []
  | x :: rest => goMarshal x :: marshalList rest
termination_by structural l => l

/-- Entries of a map with their values encoded, keys untouched. -/
def encodePairs : List (String × GoVal) → List (String × String)
  | [] => []
  | (k, v) :: rest => (k, goMarshal v) :: encodePairs rest
termination_by structural l => l
end

example : goMarshal (.obj [("b", .intv 2), ("a", .strv "x")]) = "\x7b\"a\":\"x\",\"b\":2\x7d" := by decide
example : goMarshal (.jnum "5") = "5" := by decide
example : goMarshal (.jnum "05") = "" := by decide
example : isValidNumber "-1.5e+10" = true := by decide

/-- Reading `em[k]` from a Go map: the stored value, or the `nil` interface
when the key is absent (Go's zero-value map read). -/
def objLookup (em : List (String × GoVal)) (k : String) : GoVal :=
  match em.find? (fun p => p.1 == k) with
  | some p => p.2
  | none => .null

mutual
/-- `InterfaceEquals(criteria, existing)` from `src/api_util/map.go`, branch
for branch:
nil criteria matches nil existing or any Map/Array/Slice-kinded existing and
no scalar; non-nil criteria never matches nil existing; two values of the
same comparable dynamic type match when equal, otherwise via `TimeCompare`;
a slice criteria matches any slice existing and nothing else; a map criteria
recurses entrywise over the criteria's keys (missing keys of `existing` read
as nil); a numeric criteria against a String-kinded existing matches exactly
when the existing's dynamic type is `json.Number`; every remaining pair is
decided by comparing `json.Marshal` outputs (errors ignored). -/
def InterfaceEquals : GoVal → GoVal → Bool
  | .null, .null => true
  | .null, .arr _ => true
  | .null, .obj _ => true
  | .null, _ => false
  | _, .null => false
  | .boolv b1, .boolv b2 => if b1 == b2 then true else TimeCompare (.boolv b1) (.boolv b2)
  | .intv n1, .intv n2 => if n1 == n2 then true else TimeCompare (.intv n1) (.intv n2)
  | .strv s1, .strv s2 => if s1 == s2 then true else TimeCompare (.strv s1) (.strv s2)
  | .jnum r1, .jnum r2 => if r1 == r2 then true else TimeCompare (.jnum r1) (.jnum r2)
  | .arr _, .arr _ => true
  | .arr _, _ => false
  | .obj cm, .obj em => objMatch cm em
  | .obj _, _ => false
  | .intv _, .strv _ => false
  | .intv _, .jnum _ => true
  | c, e => goMarshal c == goMarshal e
termination_by structural c => c

/-- The `for k, v := range cm { if !InterfaceEquals(v, em[k]) { return false } }`
loop of the map branch: every criteria entry must match the corresponding
existing entry (nil when absent). -/
def objMatch : List (String × GoVal) → List (String × GoVal) → Bool
  | [], _ => true
  | (k, v) :: rest, em => InterfaceEquals v (objLookup em k) && objMatch rest em
termination_by structural l => l
end

example : InterfaceEquals .null .null = true := by decide
example : InterfaceEquals .null (.obj []) = true := by decide
example : InterfaceEquals .null (.arr []) = true := by decide
example : InterfaceEquals .null (.strv "x") = false := by decide
example : InterfaceEquals .null (.intv 5) = false := by decide
example : InterfaceEquals (.obj [("a", .intv 1)]) (.obj [("a", .intv 1), ("b", .intv 2)]) = true := by decide
example : InterfaceEquals (.obj [("a", .intv 1), ("c", .intv 3)]) (.obj [("a", .intv 1)]) = false := by decide
example : InterfaceEquals (.strv "5") (.jnum "5") = false := by decide
example : InterfaceEquals (.intv 5) (.jnum "5") = true := by decide
example : InterfaceEquals (.intv 5) (.jnum "7") = true := by decide
example : InterfaceEquals (.jnum "5") (.intv 5) = true := by decide
example : InterfaceEquals (.jnum "5") (.intv 7) = false := by decide
example : InterfaceEquals (.intv 5) (.strv "5") = false := by decide
example : InterfaceEquals (.arr [.intv 1]) (.arr [.strv "zzz"]) = true := by decide

mutual
/-- `MapCopy(src)` from `src/api_util/map.go`: a `nil` map (modelled `.null`)
for an empty source, otherwise a new map with every entry copied, map and
slice values copied recursively. -/
def MapCopy : List (String × GoVal) → GoVal
  | [] => .null
  | (k, v) :: rest => .obj ((k, copyVal v) :: copyPairs rest)
termination_by structural l => l

/-- The copy loop of `MapCopy` over the entries. -/
def copyPairs : List (String × GoVal) → List (String × GoVal)
  | [] => []
  | (k, v) :: rest => (k, copyVal v) :: copyPairs rest
termination_by structural l => l

/-- The per-value body shared by `MapCopy` and `ArrayCopy`: map values via
`MapCopy`, slice values via `ArrayCopy`, any other value assigned as is. -/
def copyVal : GoVal → GoVal
  | .obj m => MapCopy m
  | .arr a => ArrayCopy a
  | v => v
termination_by structural v => v

/-- `ArrayCopy(src)` from `src/api_util/map.go`: a `nil` slice (modelled
`.null`) for an empty source, otherwise a new slice of recursively copied
elements. -/
def ArrayCopy : List GoVal → GoVal
  | [] => .null
  | v :: rest => .arr (copyVal v :: copyElems rest)
termination_by structural l => l

/-- The copy loop of `ArrayCopy` over the elements. -/
def copyElems : List GoVal → List GoVal
  | [] => []
  | v :: rest => copyVal v :: copyElems rest
termination_by structural l => l
end

/-- The spec's `DeepCopy(v)`: `MapCopy` on an Object, `ArrayCopy` on a
Sequence, and by-value copy of a scalar (identical to `copyVal`, exposed
under the spec's name for the root call). -/
def DeepCopy (v : GoVal) : GoVal := copyVal v

mutual
/-- Specification-side description of deep copying (from the spec's words,
for comparison with `DeepCopy`): the structurally equal tree, except that
every empty container yields an absent `Null` result; scalars unchanged. -/
def pruneEmpty : GoVal → GoVal
  | .obj [] => .null
  | .obj kvs => .obj (prunePairs kvs)
  | .arr [] => .null
  | .arr xs => .arr (pruneElems xs)
  | v => v
termination_by structural v => v

/-- `pruneEmpty` over map entries. -/
def prunePairs : List (String × GoVal) → List (String × GoVal)
  | [] => []
  | (k, v) :: rest => (k, pruneEmpty v) :: prunePairs rest
termination_by structural l => l

/-- `pruneEmpty` over slice elements. -/
def pruneElems : List GoVal → List GoVal
  | [] => []
  | v :: rest => pruneEmpty v :: pruneElems rest
termination_by structural l => l
end

/-- Whether a Go map contains a key. -/
def hasKey (m : List (String × GoVal)) (k : String) : Bool :=
  m.any (fun p => p.1 == k)

/-- Reading a Go map with the comma-ok idiom: `v, ok := m[k]`. -/
def mapLookup (m : List (String × GoVal)) (k : String) : Option GoVal :=
  (m.find? (fun p => p.1 == k)).map (fun p => p.2)

/-- The Go map assignment `m[k] = v`: overwrite the entry when the key is
present, append a new entry otherwise. -/
def mapSet : List (String × GoVal) → String → GoVal → List (String × GoVal)
  | [], k, v => [(k, v)]
  | p :: rest, k, v => if p.1 == k then (k, v) :: rest else p :: mapSet rest k v

/-- `MapCombine(dst, src)` from `src/api_util/map.go`: `MapCopy(src)` when
`dst` is empty, `dst` unchanged when `src` is empty, otherwise `dst[k] = v`
for every entry of `src`.  The Go return type is a map that may be `nil`;
the result is a `GoVal` that is `.null` exactly for a `nil` map. -/
def MapCombine (dst src : List (String × GoVal)) : GoVal :=
  if dst.isEmpty then MapCopy src
  else if src.isEmpty then .obj dst
  else .obj (src.foldl (fun d p => mapSet d p.1 p.2) dst)

/-- `MapAdd(dst, src)` from `src/api_util/map.go`: `MapCopy(src)` when `dst`
is empty, `dst` unchanged when `src` is empty, otherwise `dst[k] = v` only
for the keys of `src` absent from `dst`. -/
def MapAdd (dst src : List (String × GoVal)) : GoVal :=
  if dst.isEmpty then MapCopy src
  else if src.isEmpty then .obj dst
  else .obj (src.foldl (fun d p => if hasKey d p.1 then d else d ++ [p]) dst)

/-- `MapReplace(dst, src)` from `src/api_util/map.go`: `dst` unchanged when
`src` is empty, otherwise every existing entry of `dst` whose key is also in
`src` is overwritten with the value from `src` (iterating the keys of `dst`,
so no key is added or removed). -/
def MapReplace (dst src : List (String × GoVal)) : List (String × GoVal) :=
  if src.isEmpty then dst
  else dst.map (fun p =>
    match mapLookup src p.1 with
    | some v => (p.1, v)
    | none => p)

/-- `MapIsCompatible(big, small)` from `src/api_util/map.go`: every key of
`small` occurs in `big`. -/
def MapIsCompatible (big small : List (String × GoVal)) : Bool :=
  small.all (fun p => hasKey big p.1)

example : MapCombine [] [] = .null := rfl
example : MapAdd [] [] = .null := rfl
example : MapCopy [("a", .obj [])] = .obj [("a", .null)] := rfl
example : MapReplace [("a", .intv 1), ("b", .intv 2)] [("b", .intv 9), ("c", .intv 9)] =
    [("a", .intv 1), ("b", .intv 9)] := rfl
example : MapAdd [("a", .intv 1)] [("a", .intv 2), ("b", .intv 3)] =
    .obj [("a", .intv 1), ("b", .intv 3)] := rfl
example : MapCombine [("a", .intv 1)] [("a", .intv 2), ("b", .intv 3)] =
    .obj [("a", .intv 2), ("b", .intv 3)] := rfl

mutual
/-- `IterateMapsInInterface(in, callback)` from `src/api_util/map.go`: a map
node is passed to the callback and, unless the callback fails, its values are
traversed recursively in entry order; a slice node is transparent, its
elements traversed in order; any other node is ignored.  The first callback
error is returned as is, ending the traversal. -/
def IterateMapsInInterface {E : Type} (v : GoVal) (cb : List (String × GoVal) → Except E Unit) :
    Except E Unit :=
  match v with
  | .obj kvs =>
    match cb kvs with
    | .error e => .error e
    | .ok _ => iterPairs kvs cb
  | .arr xs => iterElems xs cb
  | _ => .ok ()
termination_by structural v

/-- The `for _, v := range inMap` loop of `IterateMapsInInterface`. -/
def iterPairs {E : Type} (kvs : List (String × GoVal)) (cb : List (String × GoVal) → Except E Unit) :
    Except E Unit :=
  match kvs with
  | [] => .ok ()
  | (_, v) :: rest =>
    match IterateMapsInInterface v cb with
    | .error e => .error e
    | .ok _ => iterPairs rest cb
termination_by structural kvs

/-- The `for _, v := range inArray` loop of `IterateMapsInInterface`. -/
def iterElems {E : Type} (xs : List GoVal) (cb : List (String × GoVal) → Except E Unit) :
    Except E Unit :=
  match xs with
  | [] => .ok ()
  | v :: rest =>
    match IterateMapsInInterface v cb with
    | .error e => .error e
    | .ok _ => iterElems rest cb
termination_by structural xs
end

/-- The `mapCallback` closure of `IterateFieldsInInterface`: invoke the field
callback on every entry of one map, stopping at the first error. -/
def fieldsLoop {E : Type} (kvs : List (String × GoVal)) (cb : String → GoVal → Except E Unit) :
    Except E Unit :=
  match kvs with
  | [] => .ok ()
  | (k, v) :: rest =>
    match cb k v with
    | .error e => .error e
    | .ok _ => fieldsLoop rest cb

/-- `IterateFieldsInInterface(in, callback)` from `src/api_util/map.go`:
`IterateMapsInInterface` with the per-map `mapCallback` closure. -/
def IterateFieldsInInterface {E : Type} (v : GoVal) (cb : String → GoVal → Except E Unit) :
    Except E Unit :=
  IterateMapsInInterface v (fun m => fieldsLoop m cb)

mutual
/-- The object-visit sequence `IterateMapsInInterface` produces: a recursive
preorder walk that lists each map node before descending into its values,
with slices transparent. -/
def visitList : GoVal → List (List (String × GoVal))
  | .obj kvs => kvs :: visitPairs kvs
  | .arr xs => visitElems xs
  | _ => []
termination_by structural v => v

/-- `visitList` over map entries. -/
def visitPairs : List (String × GoVal) → List (List (String × GoVal))
  | [] => []
  | (_, v) :: rest => visitList v ++ visitPairs rest
termination_by structural l => l

/-- `visitList` over slice elements. -/
def visitElems : List GoVal → List (List (String × GoVal))
  | [] => []
  | v :: rest => visitList v ++ visitElems rest
termination_by structural l => l
end

mutual
/-- Instrumented form of `IterateMapsInInterface`: the same control flow, also
reporting the list of map nodes actually passed to the callback, in order. -/
def runMaps {E : Type} (v : GoVal) (cb : List (String × GoVal) → Except E Unit) :
    List (List (String × GoVal)) × Except E Unit :=
  match v with
  | .obj kvs =>
    match cb kvs with
    | .error e => ([kvs], .error e)
    | .ok _ =>
      let r := runPairs kvs cb
      (kvs :: r.1, r.2)
  | .arr xs => runElems xs cb
  | _ => ([], .ok ())
termination_by structural v

/-- Instrumented entry loop of `runMaps`. -/
def runPairs {E : Type} (kvs : List (String × GoVal)) (cb : List (String × GoVal) → Except E Unit) :
    List (List (String × GoVal)) × Except E Unit :=
  match kvs with
  | [] => ([], .ok ())
  | (_, v) :: rest =>
    let r := runMaps v cb
    match r.2 with
    | .error e => (r.1, .error e)
    | .ok _ =>
      let r2 := runPairs rest cb
      (r.1 ++ r2.1, r2.2)
termination_by structural kvs

/-- Instrumented element loop of `runMaps`. -/
def runElems {E : Type} (xs : List GoVal) (cb : List (String × GoVal) → Except E Unit) :
    List (List (String × GoVal)) × Except E Unit :=
  match xs with
  | [] => ([], .ok ())
  | v :: rest =>
    let r := runMaps v cb
    match r.2 with
    | .error e => (r.1, .error e)
    | .ok _ =>
      let r2 := runElems rest cb
      (r.1 ++ r2.1, r2.2)
termination_by structural xs
end

/-- Specification-side sequential runner: invoke the callback on the listed
nodes one after another; at the first error, stop (the nodes actually visited
are exactly the preceding ones plus the failing one) and return that error;
otherwise visit everything and succeed. -/
def seqRun {α E : Type} (l : List α) (cb : α → Except E Unit) : List α × Except E Unit :=
  match l with
  | [] => ([], .ok ())
  | a :: rest =>
    match cb a with
    | .error e => ([a], .error e)
    | .ok _ =>
      let r := seqRun rest cb
      (a :: r.1, r.2)

mutual
/-- Instrumented form of `IterateFieldsInInterface`: the same control flow,
also reporting the `(key, value)` pairs actually passed to the callback. -/
def runFields {E : Type} (v : GoVal) (cb : String → GoVal → Except E Unit) :
    List (String × GoVal) × Except E Unit :=
  match v with
  | .obj kvs =>
    let r := seqRun kvs (fun p => cb p.1 p.2)
    match r.2 with
    | .error e => (r.1, .error e)
    | .ok _ =>
      let r2 := runFieldsPairs kvs cb
      (r.1 ++ r2.1, r2.2)
  | .arr xs => runFieldsElems xs cb
  | _ => ([], .ok ())
termination_by structural v

/-- Instrumented entry loop of `runFields`. -/
def runFieldsPairs {E : Type} (kvs : List (String × GoVal)) (cb : String → GoVal → Except E Unit) :
    List (String × GoVal) × Except E Unit :=
  match kvs with
  | [] => ([], .ok ())
  | (_, v) :: rest =>
    let r := runFields v cb
    match r.2 with
    | .error e => (r.1, .error e)
    | .ok _ =>
      let r2 := runFieldsPairs rest cb
      (r.1 ++ r2.1, r2.2)
termination_by structural kvs

/-- Instrumented element loop of `runFields`. -/
def runFieldsElems {E : Type} (xs : List GoVal) (cb : String → GoVal → Except E Unit) :
    List (String × GoVal) × Except E Unit :=
  match xs with
  | [] => ([], .ok ())
  | v :: rest =>
    let r := runFields v cb
    match r.2 with
    | .error e => (r.1, .error e)
    | .ok _ =>
      let r2 := runFieldsElems rest cb
      (r.1 ++ r2.1, r2.2)
termination_by structural xs
end

mutual
/-- The Object nodes at the top of a value, looking through slices: the node
itself for an Object, the objects found among the elements (transitively
through nested slices) for a Sequence, nothing for a scalar. -/
def topObjs : GoVal → List (List (String × GoVal))
  | .obj kvs => [kvs]
  | .arr xs => topObjsElems xs
  | _ => []
termination_by structural v => v

/-- `topObjs` over slice elements. -/
def topObjsElems : List GoVal → List (List (String × GoVal))
  | [] => []
  | v :: rest => topObjs v ++ topObjsElems rest
termination_by structural l => l
end

/-- The Object nodes one nesting level below an Object node (through Object
values or Sequence elements). -/
def childObjs (m : List (String × GoVal)) : List (List (String × GoVal)) :=
  m.flatMap (fun p => topObjs p.2)

/-- The Object nodes exactly `n` levels below the root value. -/
def levelN : Nat → GoVal → List (List (String × GoVal))
  | 0, v => topObjs v
  | n + 1, v => (levelN n v).flatMap childObjs

mutual
/-- A node count of a value tree, bounding its nesting depth. -/
def goSize : GoVal → Nat
  | .obj kvs => 1 + goSizePairs kvs
  | .arr xs => 1 + goSizeElems xs
  | _ => 1
termination_by structural v => v

/-- `goSize` over map entries. -/
def goSizePairs : List (String × GoVal) → Nat
  | [] => 0
  | (_, v) :: rest => goSize v + goSizePairs rest
termination_by structural l => l

/-- `goSize` over slice elements. -/
def goSizeElems : List GoVal → Nat
  | [] => 0
  | v :: rest => goSize v + goSizeElems rest
termination_by structural l => l
end

/-- Specification-side breadth-first level order (from the spec's words): all
Object nodes of level 0, then all of level 1, and so on.  `goSize v` bounds
the depth, so every nonempty level is listed. -/
def bfsVisitList (v : GoVal) : List (List (String × GoVal)) :=
  (List.range (goSize v)).flatMap (fun n => levelN n v)

/-- The key list of an object node, used to name nodes in concrete examples. -/
def keysOf (m : List (String × GoVal)) : List String := m.map Prod.fst

example : (visitList (.obj [("x", .obj [("y", .intv 1)]), ("z", .arr [.obj [("w", .intv 2)]])])).map keysOf =
    [["x", "z"], ["y"], ["w"]] := by decide
example : (bfsVisitList (.obj [("a", .obj [("b", .obj [("c", .intv 1)])]), ("d", .obj [("e", .intv 2)])])).map keysOf =
    [["a", "d"], ["b"], ["e"], ["c"]] := by decide
example : (visitList (.obj [("a", .obj [("b", .obj [("c", .intv 1)])]), ("d", .obj [("e", .intv 2)])])).map keysOf =
    [["a", "d"], ["b"], ["c"], ["e"]] := by decide

lemma objMatch_iff (cm em : List (String × GoVal)) :
    objMatch cm em = true ↔ ∀ p ∈ cm, InterfaceEquals p.2 (objLookup em p.1) = true := by
  induction cm with
  | nil => simp [objMatch]
  | cons p rest ih =>
    obtain ⟨k, v⟩ := p
    simp [objMatch, Bool.and_eq_true, ih]

/-- C1: matching the Null criteria succeeds exactly on a Null existing value or
on an existing value that is a Sequence or an Object of any content, and fails
on every scalar (Boolean, Number — plain or decoded-verbatim — and String);
in particular `Matches(Null, Null)`, `Matches(Null, {})` and `Matches(Null, [])`
hold while `Matches(Null, "x")` and `Matches(Null, 5)` do not. -/
theorem C1_null_criteria_matches_null_and_containers :
    (∀ e : GoVal, InterfaceEquals .null e = true ↔
      (e = .null ∨ (∃ xs, e = .arr xs) ∨ (∃ m, e = .obj m))) ∧
    InterfaceEquals .null .null = true ∧
    InterfaceEquals .null (.obj []) = true ∧
    InterfaceEquals .null (.arr []) = true ∧
    InterfaceEquals .null (.strv "x") = false ∧
    InterfaceEquals .null (.intv 5) = false ∧
    (∀ b, InterfaceEquals .null (.boolv b) = false) ∧
    (∀ r, InterfaceEquals .null (.jnum r) = false) := by
  refine ⟨fun e => ?_, by decide, by decide, by decide, by decide, by decide,
    fun b => rfl, fun r => rfl⟩
  cases e <;> simp [InterfaceEquals]

/-- C2: an Object criteria matches exactly the Object existing values whose
entries at every criteria key recursively match (reading a key absent from the
existing Object as Null, which `objLookup` returns); keys only present in the
existing Object are never consulted, so `Matches({"a":1}, {"a":1,"b":2})` holds
and `Matches({"a":1,"c":3}, {"a":1})` fails. -/
theorem C2_object_criteria_subset_semantics :
    (∀ (cm : List (String × GoVal)) (e : GoVal),
      InterfaceEquals (.obj cm) e = true ↔
        ∃ em, e = .obj em ∧ ∀ p ∈ cm, InterfaceEquals p.2 (objLookup em p.1) = true) ∧
    InterfaceEquals (.obj [("a", .intv 1)]) (.obj [("a", .intv 1), ("b", .intv 2)]) = true ∧
    InterfaceEquals (.obj [("a", .intv 1), ("c", .intv 3)]) (.obj [("a", .intv 1)]) = false := by
  refine ⟨fun cm e => ?_, by decide, by decide⟩
  cases e <;> simp [InterfaceEquals, objMatch_iff]

lemma marshalString_data (s : String) :
    (marshalString s).data = '"' :: (((s.data.map escapeChar).foldl (fun a b => a ++ b) "").data ++ ['"']) := by
  simp [marshalString, String.data_append]

lemma numAfterInt_first {l r : List Char} (h : numAfterInt l = some r) :
    ∃ c cs, l = c :: cs ∧ c.isDigit = true := by
  match l with
  | [] => exact absurd h (by simp [numAfterInt])
  | c :: cs =>
    refine ⟨c, cs, rfl, ?_⟩
    simp only [numAfterInt] at h
    by_cases h0 : (c == '0') = true
    · have : c = '0' := beq_iff_eq.mp h0
      subst this
      decide
    · rw [if_neg h0] at h
      split at h
      · rename_i hcond
        exact ((Bool.and_eq_true _ _).mp hcond).1
      · cases h

lemma validNumber_first {r : String} (h : isValidNumber r = true) :
    ∃ c cs, r.data = c :: cs ∧ (c = '-' ∨ c.isDigit = true) := by
  unfold isValidNumber at h
  by_cases hm : (r.data.head? == some '-') = true
  · have hm' : r.data.head? = some '-' := beq_iff_eq.mp hm
    cases hd : r.data with
    | nil => rw [hd] at hm'; cases hm'
    | cons c cs =>
      rw [hd] at hm'
      have : c = '-' := by
        injection hm' with h1
      exact ⟨c, cs, rfl, Or.inl this⟩
  · rw [if_neg hm] at h
    cases hni : numAfterInt r.data with
    | none => rw [hni] at h; cases h
    | some r1 =>
      obtain ⟨c, cs, hd, hdig⟩ := numAfterInt_first hni
      exact ⟨c, cs, hd, Or.inr hdig⟩

/-- C3 counterexample: a String criteria `"5"` matched against the
decoded-verbatim Number `json.Number("5")` does NOT match — the
`json.Number` special case of `InterfaceEquals` requires the criteria (not
the existing value) to be of a plain numeric kind, so this pair falls through
to the serialization comparison of `"5"` (quoted) with `5` (unquoted). -/
theorem C3_counterexample_string_criteria_vs_flagged_number :
    InterfaceEquals (.strv "5") (.jnum "5") = false := by decide

/-- C3 (amended): the provenance-flag coercion runs in the opposite direction
from the claim: a criteria that is a plain Number (runtime kind Int/Float)
matches any existing `json.Number` (runtime kind String, type `json.Number`)
unconditionally, whereas a String criteria against a `json.Number` existing
value always falls through to serialization comparison and never matches
(a quoted string never equals an unquoted number literal or an empty
encoding-error result). -/
theorem C3_amended_flag_coercion_direction :
    (∀ (n : Int) (r : String), InterfaceEquals (.intv n) (.jnum r) = true) ∧
    (∀ (s r : String), InterfaceEquals (.strv s) (.jnum r) = false) := by
  constructor
  · intro n r
    rfl
  · intro s r
    have hbranch : InterfaceEquals (.strv s) (.jnum r) =
        (goMarshal (.strv s) == goMarshal (.jnum r)) := rfl
    rw [hbranch]
    have hs : goMarshal (.strv s) = marshalString s := rfl
    have hj : goMarshal (.jnum r) = if isValidNumber r then r else "" := rfl
    rw [hs, hj]
    rw [beq_eq_false_iff_ne]
    intro habs
    by_cases hv : isValidNumber r = true
    · rw [if_pos hv] at habs
      obtain ⟨c, cs, hdata, hc⟩ := validNumber_first hv
      have : (marshalString s).data = r.data := by rw [habs]
      rw [marshalString_data, hdata] at this
      have hhead : '"' = c := (List.cons.injEq _ _ _ _ |>.mp this).1
      rcases hc with hc | hc
      · rw [← hhead] at hc
        exact absurd hc (by decide)
      · rw [← hhead] at hc
        exact absurd hc (by decide)
    · rw [if_neg hv] at habs
      have : (marshalString s).data = ("" : String).data := by rw [habs]
      rw [marshalString_data] at this
      simp at this

mutual
theorem copyVal_eq_pruneEmpty (v : GoVal) : copyVal v = pruneEmpty v := by
  match v with
  | .null | .boolv _ | .intv _ | .strv _ | .jnum _ => rfl
  | .obj [] => rfl
  | .obj ((k, w) :: rest) =>
    show GoVal.obj ((k, copyVal w) :: copyPairs rest) =
      GoVal.obj ((k, pruneEmpty w) :: prunePairs rest)
    rw [copyVal_eq_pruneEmpty w, copyPairs_eq_prunePairs rest]
  | .arr [] => rfl
  | .arr (w :: rest) =>
    show GoVal.arr (copyVal w :: copyElems rest) = GoVal.arr (pruneEmpty w :: pruneElems rest)
    rw [copyVal_eq_pruneEmpty w, copyElems_eq_pruneElems rest]

theorem copyPairs_eq_prunePairs (l : List (String × GoVal)) : copyPairs l = prunePairs l := by
  match l with
  | [] => rfl
  | (k, w) :: rest =>
    show (k, copyVal w) :: copyPairs rest = (k, pruneEmpty w) :: prunePairs rest
    rw [copyVal_eq_pruneEmpty w, copyPairs_eq_prunePairs rest]

theorem copyElems_eq_pruneElems (l : List GoVal) : copyElems l = pruneElems l := by
  match l with
  | [] => rfl
  | w :: rest =>
    show copyVal w :: copyElems rest = pruneEmpty w :: pruneElems rest
    rw [copyVal_eq_pruneEmpty w, copyElems_eq_pruneElems rest]
end

/-- C6: deep copying returns the structurally equal tree except that every
empty input container (empty Object or empty Sequence, at the root or nested)
comes back as the absent value Null rather than an empty container, and
scalars are copied by value — `DeepCopy` coincides with the specification-side
`pruneEmpty` transformation on every value. -/
theorem C6_deepcopy_structure_empty_to_null :
    (∀ v : GoVal, DeepCopy v = pruneEmpty v) ∧
    DeepCopy (.obj []) = .null ∧
    DeepCopy (.arr []) = .null ∧
    (∀ n : Int, DeepCopy (.intv n) = .intv n) ∧
    DeepCopy (.obj [("a", .obj []), ("b", .intv 3)]) = .obj [("a", .null), ("b", .intv 3)] :=
  ⟨fun v => copyVal_eq_pruneEmpty v, rfl, rfl, fun _ => rfl, rfl⟩

/-- Reading a `GoVal` that is a possibly-`nil` Go map: entry lookup on a map,
nothing on anything else. -/
def objLookupV (v : GoVal) (k : String) : Option GoVal :=
  match v with
  | .obj m => mapLookup m k
  | _ => none

lemma mapLookup_nil (k : String) : mapLookup [] k = none := rfl

lemma mapLookup_cons (k1 : String) (v1 : GoVal) (rest : List (String × GoVal)) (k : String) :
    mapLookup ((k1, v1) :: rest) k = if k1 == k then some v1 else mapLookup rest k := by
  by_cases h : (k1 == k) = true <;> simp [mapLookup, List.find?, h]

lemma mapLookup_eq_none_of_not_mem (m : List (String × GoVal)) (k : String)
    (h : k ∉ m.map Prod.fst) : mapLookup m k = none := by
  induction m with
  | nil => rfl
  | cons p rest ih =>
    obtain ⟨k1, v1⟩ := p
    simp only [List.map_cons, List.mem_cons, not_or] at h
    rw [mapLookup_cons]
    have hne : (k1 == k) = false := beq_eq_false_iff_ne.mpr (fun he => h.1 he.symm)
    rw [hne]
    simp only [Bool.false_eq_true, if_false]
    exact ih h.2

lemma mapLookup_mapSet (m : List (String × GoVal)) (k : String) (v : GoVal) (q : String) :
    mapLookup (mapSet m k v) q = if k == q then some v else mapLookup m q := by
  induction m with
  | nil => simp [mapSet, mapLookup_cons]
  | cons p rest ih =>
    obtain ⟨k1, v1⟩ := p
    by_cases h1 : (k1 == k) = true
    · have hk1 : k1 = k := beq_iff_eq.mp h1
      subst hk1
      simp only [mapSet, beq_self_eq_true, if_true]
      rw [mapLookup_cons, mapLookup_cons]
      by_cases h2 : (k1 == q) = true <;> simp [h2]
    · have h1' : (k1 == k) = false := by simpa using h1
      simp only [mapSet, h1', Bool.false_eq_true, if_false]
      rw [mapLookup_cons, mapLookup_cons, ih]
      by_cases h2 : (k1 == q) = true
      · have hq : k1 = q := beq_iff_eq.mp h2
        subst hq
        have hne : k1 ≠ k := beq_eq_false_iff_ne.mp h1'
        have h3 : (k == k1) = false := beq_eq_false_iff_ne.mpr (fun he => hne he.symm)
        simp [h2, h3]
      · simp [h2]

lemma mapLookup_foldl_mapSet (src : List (String × GoVal)) :
    ∀ (dst : List (String × GoVal)) (k : String), (src.map Prod.fst).Nodup →
    mapLookup (src.foldl (fun d p => mapSet d p.1 p.2) dst) k =
      (mapLookup src k).orElse (fun _ => mapLookup dst k) := by
  induction src with
  | nil =>
    intro dst k _
    simp [Option.orElse, mapLookup]
  | cons p rest ih =>
    intro dst k hnd
    obtain ⟨k1, v1⟩ := p
    simp only [List.map_cons, List.nodup_cons] at hnd
    obtain ⟨hk1, hrest⟩ := hnd
    simp only [List.foldl_cons]
    rw [ih (mapSet dst k1 v1) k hrest, mapLookup_cons, mapLookup_mapSet]
    by_cases h : (k1 == k) = true
    · have hq : k1 = k := beq_iff_eq.mp h
      subst hq
      rw [mapLookup_eq_none_of_not_mem rest k1 hk1]
      simp [Option.orElse]
    · simp [h, Option.orElse]

/-- C7: combining Object trees gives, for a nonempty destination, a tree whose
entry at every key of `src` is the `src` value (src wins on conflict) and at
every other key the `dst` value; an empty `dst` returns `DeepCopy(src)`
(i.e. `MapCopy(src)`), and an empty `src` with nonempty `dst` returns `dst`
unchanged. -/
theorem C7_combine_src_wins (dst src : List (String × GoVal))
    (hnd : (src.map Prod.fst).Nodup) :
    (dst = [] → MapCombine dst src = MapCopy src) ∧
    (dst ≠ [] → src = [] → MapCombine dst src = .obj dst) ∧
    (dst ≠ [] → ∀ k, objLookupV (MapCombine dst src) k =
      (mapLookup src k).orElse (fun _ => mapLookup dst k)) := by
  refine ⟨fun hd => ?_, fun hd hs => ?_, fun hd k => ?_⟩
  · subst hd
    simp [MapCombine]
  · subst hs
    simp [MapCombine, List.isEmpty_iff, hd]
  · unfold MapCombine
    rw [if_neg (by simpa [List.isEmpty_iff] using hd)]
    by_cases hs : src = []
    · subst hs
      simp [objLookupV, Option.orElse, mapLookup]
    · rw [if_neg (by simpa [List.isEmpty_iff] using hs)]
      show mapLookup (src.foldl (fun d p => mapSet d p.1 p.2) dst) k = _
      exact mapLookup_foldl_mapSet src dst k hnd

/-- C7 witness: combining `{"a":1}` with `{"b":2}` at key `"b"` yields the
source value. -/
theorem C7_witness :
    objLookupV (MapCombine [("a", .intv 1)] [("b", .intv 2)]) "b" = some (.intv 2) := by
  have h := (C7_combine_src_wins [("a", .intv 1)] [("b", .intv 2)] (by decide)).2.2
    (List.cons_ne_nil _ _) "b"
  exact h.trans rfl

lemma replaceEntry_eq (src : List (String × GoVal)) (p : String × GoVal) :
    (match mapLookup src p.1 with
     | some v => (p.1, v)
     | none => p) = (p.1, (mapLookup src p.1).getD p.2) := by
  cases mapLookup src p.1 <;> rfl

lemma mapReplace_map_lookup (src : List (String × GoVal)) (dst : List (String × GoVal)) (k : String) :
    mapLookup (dst.map (fun p => (p.1, (mapLookup src p.1).getD p.2))) k =
      match mapLookup dst k with
      | none => none
      | some v => some ((mapLookup src k).getD v) := by
  induction dst with
  | nil => rfl
  | cons p rest ih =>
    obtain ⟨k1, v1⟩ := p
    simp only [List.map_cons]
    rw [mapLookup_cons, mapLookup_cons]
    by_cases h : (k1 == k) = true
    · have hk : k1 = k := beq_iff_eq.mp h
      subst hk
      simp [h]
    · simp only [h, Bool.false_eq_true, if_false]
      exact ih

/-- C8: replacing updates exactly the keys present in both maps with the
source value, leaves every other entry unchanged, and preserves the key set
of the destination (no key added or removed); in particular
`Replace({"a":1,"b":2}, {"b":9,"c":9}) = {"a":1,"b":9}`. -/
theorem C8_replace_updates_shared_keys_only :
    (∀ dst src : List (String × GoVal), keysOf (MapReplace dst src) = keysOf dst) ∧
    (∀ dst src : List (String × GoVal), ∀ k,
      mapLookup (MapReplace dst src) k =
        match mapLookup dst k with
        | none => none
        | some v => some ((mapLookup src k).getD v)) ∧
    MapReplace [("a", .intv 1), ("b", .intv 2)] [("b", .intv 9), ("c", .intv 9)] =
      [("a", .intv 1), ("b", .intv 9)] := by
  refine ⟨fun dst src => ?_, fun dst src k => ?_, rfl⟩
  · unfold MapReplace
    by_cases hs : src.isEmpty = true
    · rw [if_pos hs]
    · rw [if_neg hs]
      simp only [replaceEntry_eq]
      induction dst with
      | nil => rfl
      | cons p rest ih =>
        simp only [List.map_cons, keysOf] at ih ⊢
        rw [ih]
  · unfold MapReplace
    by_cases hs : src.isEmpty = true
    · rw [if_pos hs]
      have hsrc : src = [] := List.isEmpty_iff.mp hs
      subst hsrc
      cases hd : mapLookup dst k <;> simp [hd, mapLookup, Option.getD]
    · rw [if_neg hs]
      simp only [replaceEntry_eq]
      exact mapReplace_map_lookup src dst k

/-- C10: when both operands are empty Objects, `MapCombine` and `MapAdd`
return the absent value Null (a `nil` Go map, the deep copy of the empty
source) rather than the empty Object destination — the empty-destination rule
runs first. -/
theorem C10_combine_add_empty_empty_is_null :
    MapCombine [] [] = .null ∧ MapAdd [] [] = .null ∧
    GoVal.null ≠ GoVal.obj [] :=
  ⟨rfl, rfl, fun h => GoVal.noConfusion h⟩

lemma seqRun_append {α E : Type} (l1 l2 : List α) (cb : α → Except E Unit) :
    seqRun (l1 ++ l2) cb =
      match seqRun l1 cb with
      | (vs, .error e) => (vs, .error e)
      | (vs, .ok _) => (vs ++ (seqRun l2 cb).1, (seqRun l2 cb).2) := by
  induction l1 with
  | nil => simp [seqRun]
  | cons a rest ih =>
    cases h : cb a with
    | error e => simp [seqRun, h]
    | ok u =>
      cases u
      cases hr : seqRun rest cb with
      | mk vs res =>
        cases res with
        | error e => simp [seqRun, h, ih, hr]
        | ok u2 => cases u2; simp [seqRun, h, ih, hr]

lemma seqRun_all_ok {α E : Type} (l : List α) (cb : α → Except E Unit)
    (h : ∀ a ∈ l, cb a = .ok ()) : seqRun l cb = (l, .ok ()) := by
  induction l with
  | nil => rfl
  | cons a rest ih =>
    have ha : cb a = .ok () := h a (List.mem_cons_self a rest)
    simp [seqRun, ha, ih (fun b hb => h b (List.mem_cons_of_mem a hb))]

mutual
theorem runMaps_eq_seqRun {E : Type} (v : GoVal) (cb : List (String × GoVal) → Except E Unit) :
    runMaps v cb = seqRun (visitList v) cb := by
  match v with
  | .null | .boolv _ | .intv _ | .strv _ | .jnum _ => rfl
  | .obj kvs =>
    cases h : cb kvs with
    | error e => simp [runMaps, seqRun, visitList, h]
    | ok u =>
      cases u
      simp [runMaps, seqRun, visitList, h, runPairs_eq_seqRun kvs cb]
  | .arr xs =>
    simp [runMaps, visitList, runElems_eq_seqRun xs cb]

theorem runPairs_eq_seqRun {E : Type} (kvs : List (String × GoVal))
    (cb : List (String × GoVal) → Except E Unit) :
    runPairs kvs cb = seqRun (visitPairs kvs) cb := by
  match kvs with
  | [] => rfl
  | (k, w) :: rest =>
    simp only [runPairs, visitPairs]
    rw [seqRun_append, ← runMaps_eq_seqRun w cb, ← runPairs_eq_seqRun rest cb]
    cases hr : runMaps w cb with
    | mk vs res =>
      cases res with
      | error e => simp [hr]
      | ok u => cases u; simp [hr]

theorem runElems_eq_seqRun {E : Type} (xs : List GoVal)
    (cb : List (String × GoVal) → Except E Unit) :
    runElems xs cb = seqRun (visitElems xs) cb := by
  match xs with
  | [] => rfl
  | w :: rest =>
    simp only [runElems, visitElems]
    rw [seqRun_append, ← runMaps_eq_seqRun w cb, ← runElems_eq_seqRun rest cb]
    cases hr : runMaps w cb with
    | mk vs res =>
      cases res with
      | error e => simp [hr]
      | ok u => cases u; simp [hr]
end

mutual
theorem iterateMaps_eq_runMaps {E : Type} (v : GoVal)
    (cb : List (String × GoVal) → Except E Unit) :
    IterateMapsInInterface v cb = (runMaps v cb).2 := by
  match v with
  | .null | .boolv _ | .intv _ | .strv _ | .jnum _ => rfl
  | .obj kvs =>
    cases h : cb kvs with
    | error e => simp [IterateMapsInInterface, runMaps, h]
    | ok u =>
      cases u
      simp [IterateMapsInInterface, runMaps, h, iterPairs_eq_runPairs kvs cb]
  | .arr xs =>
    simp [IterateMapsInInterface, runMaps, iterElems_eq_runElems xs cb]

theorem iterPairs_eq_runPairs {E : Type} (kvs : List (String × GoVal))
    (cb : List (String × GoVal) → Except E Unit) :
    iterPairs kvs cb = (runPairs kvs cb).2 := by
  match kvs with
  | [] => rfl
  | (k, w) :: rest =>
    simp only [iterPairs, runPairs]
    rw [iterateMaps_eq_runMaps w cb]
    cases hr : (runMaps w cb).2 with
    | error e => simp [hr]
    | ok u => cases u; simp [hr, iterPairs_eq_runPairs rest cb]

theorem iterElems_eq_runElems {E : Type} (xs : List GoVal)
    (cb : List (String × GoVal) → Except E Unit) :
    iterElems xs cb = (runElems xs cb).2 := by
  match xs with
  | [] => rfl
  | w :: rest =>
    simp only [iterElems, runElems]
    rw [iterateMaps_eq_runMaps w cb]
    cases hr : (runMaps w cb).2 with
    | error e => simp [hr]
    | ok u => cases u; simp [hr, iterElems_eq_runElems rest cb]
end

lemma fieldsLoop_eq_seqRun {E : Type} (kvs : List (String × GoVal))
    (cb : String → GoVal → Except E Unit) :
    fieldsLoop kvs cb = (seqRun kvs (fun p => cb p.1 p.2)).2 := by
  induction kvs with
  | nil => rfl
  | cons p rest ih =>
    obtain ⟨k, w⟩ := p
    cases h : cb k w with
    | error e => simp [fieldsLoop, seqRun, h]
    | ok u => cases u; simp [fieldsLoop, seqRun, h, ih]

mutual
theorem runFields_eq_seqRun {E : Type} (v : GoVal) (fcb : String → GoVal → Except E Unit) :
    runFields v fcb = seqRun (visitList v).flatten (fun p => fcb p.1 p.2) := by
  match v with
  | .null | .boolv _ | .intv _ | .strv _ | .jnum _ => rfl
  | .obj kvs =>
    show (match (seqRun kvs (fun p => fcb p.1 p.2)).2 with
      | .error e => ((seqRun kvs (fun p => fcb p.1 p.2)).1, Except.error e)
      | .ok _ =>
        ((seqRun kvs (fun p => fcb p.1 p.2)).1 ++ (runFieldsPairs kvs fcb).1,
          (runFieldsPairs kvs fcb).2)) = _
    rw [show visitList (.obj kvs) = kvs :: visitPairs kvs from rfl, List.flatten_cons,
      seqRun_append, ← runFieldsPairs_eq_seqRun kvs fcb]
    cases hr : seqRun kvs (fun p => fcb p.1 p.2) with
    | mk vs res =>
      cases res with
      | error e => simp [hr]
      | ok u => cases u; simp [hr]
  | .arr xs =>
    simp [runFields, visitList, runFieldsElems_eq_seqRun xs fcb]

theorem runFieldsPairs_eq_seqRun {E : Type} (kvs : List (String × GoVal))
    (fcb : String → GoVal → Except E Unit) :
    runFieldsPairs kvs fcb = seqRun (visitPairs kvs).flatten (fun p => fcb p.1 p.2) := by
  match kvs with
  | [] => rfl
  | (k, w) :: rest =>
    simp only [runFieldsPairs, visitPairs]
    rw [List.flatten_append, seqRun_append, ← runFields_eq_seqRun w fcb,
      ← runFieldsPairs_eq_seqRun rest fcb]
    cases hr : runFields w fcb with
    | mk vs res =>
      cases res with
      | error e => simp [hr]
      | ok u => cases u; simp [hr]

theorem runFieldsElems_eq_seqRun {E : Type} (xs : List GoVal)
    (fcb : String → GoVal → Except E Unit) :
    runFieldsElems xs fcb = seqRun (visitElems xs).flatten (fun p => fcb p.1 p.2) := by
  match xs with
  | [] => rfl
  | w :: rest =>
    simp only [runFieldsElems, visitElems]
    rw [List.flatten_append, seqRun_append, ← runFields_eq_seqRun w fcb,
      ← runFieldsElems_eq_seqRun rest fcb]
    cases hr : runFields w fcb with
    | mk vs res =>
      cases res with
      | error e => simp [hr]
      | ok u => cases u; simp [hr]
end

lemma seqRun_flatten_snd {α E : Type} (ms : List (List α)) (cb : α → Except E Unit) :
    (seqRun ms (fun m => (seqRun m cb).2)).2 = (seqRun ms.flatten cb).2 := by
  induction ms with
  | nil => rfl
  | cons m rest ih =>
    rw [List.flatten_cons, seqRun_append]
    cases hr : seqRun m cb with
    | mk vs res =>
      cases res with
      | error e => simp [seqRun, hr]
      | ok u => cases u; simp [seqRun, hr, ih]

/-- C9: during `IterateMapsInInterface` (WalkObjects) and
`IterateFieldsInInterface` (WalkFields) the callback invocations are exactly a
sequential run over the traversal's visit sequence: the visits actually
performed stop at the first failing invocation, whose error is returned to the
caller verbatim; when no invocation fails the traversal visits everything and
returns success. -/
theorem C9_walker_first_error_aborts_and_propagates {E : Type} (v : GoVal)
    (cb : List (String × GoVal) → Except E Unit) (fcb : String → GoVal → Except E Unit) :
    runMaps v cb = seqRun (visitList v) cb ∧
    IterateMapsInInterface v cb = (seqRun (visitList v) cb).2 ∧
    runFields v fcb = seqRun (visitList v).flatten (fun p => fcb p.1 p.2) ∧
    IterateFieldsInInterface v fcb = (seqRun (visitList v).flatten (fun p => fcb p.1 p.2)).2 ∧
    ((∀ m ∈ visitList v, cb m = .ok ()) → IterateMapsInInterface v cb = .ok ()) ∧
    (∀ e, (seqRun (visitList v) cb).2 = .error e → IterateMapsInInterface v cb = .error e) := by
  have hmaps : IterateMapsInInterface v cb = (seqRun (visitList v) cb).2 :=
    (iterateMaps_eq_runMaps v cb).trans (congrArg Prod.snd (runMaps_eq_seqRun v cb))
  have hfields : IterateFieldsInInterface v fcb =
      (seqRun (visitList v).flatten (fun p => fcb p.1 p.2)).2 := by
    have h1 : IterateFieldsInInterface v fcb =
        (seqRun (visitList v) (fun m => fieldsLoop m fcb)).2 :=
      (iterateMaps_eq_runMaps v (fun m => fieldsLoop m fcb)).trans
        (congrArg Prod.snd (runMaps_eq_seqRun v (fun m => fieldsLoop m fcb)))
    have h2 : (fun m => fieldsLoop m fcb) =
        (fun m => (seqRun m (fun p => fcb p.1 p.2)).2) := by
      funext m
      exact fieldsLoop_eq_seqRun m fcb
    rw [h1, h2, seqRun_flatten_snd]
  refine ⟨runMaps_eq_seqRun v cb, hmaps, runFields_eq_seqRun v fcb, hfields,
    fun hall => ?_, fun e he => ?_⟩
  · rw [hmaps, seqRun_all_ok (visitList v) cb hall]
  · rw [hmaps, he]

/-- C9 witness: on `{"a":1,"b":{"c":2}}` with a callback failing on the inner
object, the traversal returns that error. -/
theorem C9_witness :
    IterateMapsInInterface (.obj [("a", .intv 1), ("b", .obj [("c", .intv 2)])])
      (fun m => if keysOf m = ["c"] then Except.error "boom" else Except.ok ()) =
      Except.error "boom" := by
  have h := (C9_walker_first_error_aborts_and_propagates
    (.obj [("a", .intv 1), ("b", .obj [("c", .intv 2)])])
    (fun m => if keysOf m = ["c"] then Except.error "boom" else Except.ok ())
    (fun _ _ => Except.ok ())).2.1
  exact h.trans rfl

/-- A value with one Object two levels deep next to an Object one level deep:
the input distinguishing depth-first from breadth-first visiting. -/
def exDeep : GoVal :=
  .obj [("a", .obj [("b", .obj [("c", .intv 1)])]), ("d", .obj [("e", .intv 2)])]

/-- C4: the claim's (and the source comment's) promised breadth-first level
order does not hold — `IterateMapsInInterface` visits in depth-first preorder.
On `{"a":{"b":{"c":1}},"d":{"e":2}}` the traversal visits the depth-2 object
`{"c":1}` before the depth-1 object `{"e":2}`, whereas level order lists every
depth-1 object first; the two orders provably differ (the visit set, the
root-first property, and the spec's own 3-visit example do hold). -/
theorem C4_walk_is_depth_first_not_level_order :
    ((runMaps (E := Unit) exDeep (fun _ => .ok ())).1 = visitList exDeep) ∧
    ((visitList exDeep).map keysOf = [["a", "d"], ["b"], ["c"], ["e"]]) ∧
    ((bfsVisitList exDeep).map keysOf = [["a", "d"], ["b"], ["e"], ["c"]]) ∧
    visitList exDeep ≠ bfsVisitList exDeep ∧
    ((visitList (.obj [("x", .obj [("y", .intv 1)]), ("z", .arr [.obj [("w", .intv 2)]])])).map keysOf =
      [["x", "z"], ["y"], ["w"]]) := by
  refine ⟨rfl, by decide, by decide, fun h => ?_, by decide⟩
  exact absurd (congrArg (List.map keysOf) h) (by decide)

end VmieApiQA
